import Mathlib

/-!
# Verification of the freud Steinhardt order-parameter engine and PMFTXYTM2D

Shallow embedding of:
* `src/cpp/order/Steinhardt.h` — the `Steinhardt` class: constructor
  validation, flag-dispatched accessors `getQl`/`getWl`, `getNP`,
  `getUseWl`, and (modelled from the spec, since the definition file
  `Steinhardt.cc` is not part of the excerpt) the compute pipeline: bond
  accumulation, guarded reduction, the rotationally invariant `Ql`, and
  the third-order `Wl`.
* `src/cpp/pmft/PMFTXYTM2D.cc` — constructor validation, the per-pair
  binning logic of `ComputePMFTXYTM2D::operator()`, and the thread-local
  reduction loop of `CombinePCFXYTM2D::operator()`.

Machine `float` values are modelled as `ℚ` where the source only compares
them and does ring/division arithmetic; the real-valued spherical-harmonic
mathematics (which the spec states over the reals) is modelled with `ℝ`
and `ℂ`.
-/

/-! ## Steinhardt: state and member functions (src/cpp/order/Steinhardt.h) -/

/-- State of a `Steinhardt` instance: the member variables of the C++
class (Steinhardt.h lines 195-221).  The `shared_ptr` result buffers are
modelled by lists; a default-constructed (null) `shared_ptr` is the empty
list.  The thread-local scratch buffers (`m_Qlm_local`, `m_AveQlm_local`),
the system-wide rows `m_Qlm`/`m_AveQlm`, the `m_reduce` flag and the
Wigner table cache are internal to the absent definition file and play no
role in the claims, so they are not carried in the state. -/
structure Steinhardt where
  m_Np : ℕ
  m_rmax : ℚ
  m_l : ℕ
  m_rmin : ℚ
  m_average : Bool
  m_norm : Bool
  m_Wl : Bool
  m_Qli : List ℝ
  m_QliAve : List ℝ
  m_QliNorm : List ℝ
  m_QliAveNorm : List ℝ
  m_Wli : List ℂ
  m_WliAve : List ℂ
  m_WliNorm : List ℂ
  m_WliAveNorm : List ℂ

/-- `Steinhardt::Steinhardt` (Steinhardt.h lines 65-87): initialises
`m_Np = 0` and the flags, leaves every result `shared_ptr` null (empty),
and performs the three eager validation checks in source order. -/
def mkSteinhardt (rmax : ℚ) (l : ℕ) (rmin : ℚ) (average : Bool)
    (norm : Bool) (wl : Bool) : Except String Steinhardt :=
  if rmax < 0 ∨ rmin < 0 then
    Except.error "Steinhardt requires rmin and rmax must be positive."
  else if rmin ≥ rmax then
    Except.error "Steinhardt requires rmin must be less than rmax."
  else if l < 2 then
    Except.error "Steinhardt requires l must be two or greater."
  else
    Except.ok ⟨0, rmax, l, rmin, average, norm, wl,
               [], [], [], [], [], [], [], []⟩

/-- Whether a construction attempt succeeded (no exception thrown). -/
def exceptOk {α : Type} (e : Except String α) : Bool :=
  match e with
  | Except.ok _ => true
  | Except.error _ => false

/-- `Steinhardt::getNP` (Steinhardt.h lines 93-96). -/
def getNP (s : Steinhardt) : ℕ := s.m_Np

/-- `Steinhardt::getQl` (Steinhardt.h lines 99-117): dispatch on the
`average`/`norm` flags, returning one of the four stored buffers. -/
def getQl (s : Steinhardt) : List ℝ :=
  if s.m_average && s.m_norm then s.m_QliAveNorm
  else if s.m_average then s.m_QliAve
  else if s.m_norm then s.m_QliNorm
  else s.m_Qli

/-- `Steinhardt::getWl` (Steinhardt.h lines 120-138): same dispatch for
the third-order invariant buffers. -/
def getWl (s : Steinhardt) : List ℂ :=
  if s.m_average && s.m_norm then s.m_WliAveNorm
  else if s.m_average then s.m_WliAve
  else if s.m_norm then s.m_WliNorm
  else s.m_Wli

/-- `Steinhardt::getUseWl` (Steinhardt.h lines 141-144). -/
def getUseWl (s : Steinhardt) : Bool := s.m_Wl

/-! ## Steinhardt compute pipeline

`Steinhardt::compute`, `baseCompute` and the variant passes are only
declared in Steinhardt.h (lines 146-193); their definition file is not
part of the excerpt, so the pipeline below is modelled from the spec
(sections 4.2-4.4).  A bond is given by its polar and azimuthal angles;
the spherical-harmonic evaluator and the Wigner 3j table enter as
function parameters (spec section 9 models the evaluator as a swappable
strategy object). -/

/-- Modelled from the spec (section 4.2 BondAccumulator): one bond visit
adds the Ylm row for that bond into the accumulation row and increments
the bond counter. -/
def accumStep (Ylm : ℤ → ℝ × ℝ → ℂ) (acc : (ℤ → ℂ) × ℕ) (b : ℝ × ℝ) :
    (ℤ → ℂ) × ℕ :=
  (fun m => acc.1 m + Ylm m b, acc.2 + 1)

/-- Modelled from the spec (section 4.2): visit the bonds of one particle
in order, starting from an all-zero row and a zero counter. -/
def accumBonds (Ylm : ℤ → ℝ × ℝ → ℂ) (bonds : List (ℝ × ℝ)) :
    (ℤ → ℂ) × ℕ :=
  bonds.foldl (accumStep Ylm) (fun _ => 0, 0)

/-- Modelled from the spec (sections 4.2-4.3): the reduction divides the
accumulated row by the bond count; a zero count is special-cased to give
a zero row rather than a division by zero. -/
noncomputable def QlmReduced (Ylm : ℤ → ℝ × ℝ → ℂ)
    (bonds : List (ℝ × ℝ)) (m : ℤ) : ℂ :=
  if (accumBonds Ylm bonds).2 = 0 then 0
  else (accumBonds Ylm bonds).1 m / ((accumBonds Ylm bonds).2 : ℂ)

/-- The rotationally invariant combination (spec section 4.4 step 1, and
the formula in the Steinhardt.h class comment, lines 33-35). -/
noncomputable def QlFromQlm (l : ℕ) (q : ℤ → ℂ) : ℝ :=
  Real.sqrt (4 * Real.pi / (2 * l + 1) *
    ∑ m ∈ Finset.Icc (-(l : ℤ)) (l : ℤ), Complex.normSq (q m))

/-- The third-order invariant combination (spec section 4.4 step 4; the
index ranges follow the comment on `m_wigner3jvalues`, Steinhardt.h
line 221). -/
noncomputable def WlFromQlm (l : ℕ) (w3j : ℤ → ℤ → ℝ) (q : ℤ → ℂ) : ℂ :=
  ∑ m1 ∈ Finset.Icc (-(l : ℤ)) (l : ℤ),
    ∑ m2 ∈ Finset.Icc (max (-(l : ℤ) - m1) (-(l : ℤ)))
                      (min ((l : ℤ) - m1) (l : ℤ)),
      ((w3j m1 m2 : ℝ) : ℂ) * q m1 * q m2 * q (-m1 - m2)

/-- Modelled from the spec: per-particle base Ql of `baseCompute`
(accumulate, reduce with the zero-count guard, then combine). -/
noncomputable def Qli (l : ℕ) (Ylm : ℤ → ℝ × ℝ → ℂ)
    (bonds : List (ℝ × ℝ)) : ℝ :=
  QlFromQlm l (QlmReduced Ylm bonds)

/-- Modelled from the spec: per-particle base Wl from the same reduced
row. -/
noncomputable def Wli (l : ℕ) (w3j : ℤ → ℤ → ℝ)
    (Ylm : ℤ → ℝ × ℝ → ℂ) (bonds : List (ℝ × ℝ)) : ℂ :=
  WlFromQlm l w3j (QlmReduced Ylm bonds)

/-- Comparison definition following the words of the spec (section 4.4
step 1): Ql(i) = sqrt(4 pi / (2l+1) times the sum over m in [-l, l] of
the squared modulus of Qlm(i, m)), where Qlm(i, m) is the plain average
of Ylm over the bonds of particle i. -/
noncomputable def QlSpecFormula (l : ℕ) (Ylm : ℤ → ℝ × ℝ → ℂ)
    (bonds : List (ℝ × ℝ)) : ℝ :=
  Real.sqrt (4 * Real.pi / (2 * l + 1) *
    ∑ m ∈ Finset.Icc (-(l : ℤ)) (l : ℤ),
      Complex.normSq ((bonds.map (fun b => Ylm m b)).sum /
        (bonds.length : ℂ)))

/-- Modelled from the spec: the reduced row of particle `i`, where the
neighbor-list input gives, per particle, the neighbor index and the two
bond angles. -/
noncomputable def baseQlm (Ylm : ℤ → ℝ × ℝ → ℂ)
    (nbrs : List (List (ℕ × ℝ × ℝ))) (i : ℕ) : ℤ → ℂ :=
  QlmReduced Ylm ((nbrs.getD i []).map (fun b => b.2))

/-- Modelled from the spec (section 4.4 step 2): second-shell averaged
row — the row of `i` plus the rows of its neighbors, divided by one plus
the neighbor count. -/
noncomputable def aveQlm (Ylm : ℤ → ℝ × ℝ → ℂ)
    (nbrs : List (List (ℕ × ℝ × ℝ))) (i : ℕ) (m : ℤ) : ℂ :=
  (baseQlm Ylm nbrs i m +
      ((nbrs.getD i []).map (fun b => baseQlm Ylm nbrs b.1 m)).sum) /
    (((1 + (nbrs.getD i []).length : ℕ) : ℂ))

/-- Modelled from the spec (section 4.4 step 3): the system-wide
reference row, averaging the active row variant over all particles.  The
exact rescaling is left open by the spec (section 9); following the
member comments on `m_Qlm`/`m_AveQlm` the normalized variant applies the
invariant combination to this reference row. -/
noncomputable def sysQlm (avg : Bool) (Ylm : ℤ → ℝ × ℝ → ℂ)
    (nbrs : List (List (ℕ × ℝ × ℝ))) (m : ℤ) : ℂ :=
  (((List.range nbrs.length).map
      (fun i => if avg then aveQlm Ylm nbrs i m else baseQlm Ylm nbrs i m)).sum) /
    ((nbrs.length : ℂ))

/-- Modelled from the spec: `Steinhardt::compute` (Steinhardt.h lines
146-150; definition absent from the excerpt).  One call recomputes every
buffer from scratch: the base Ql always, each derived variant exactly
when its construction-time flags enable it (spec sections 4.4 and 9:
only the enabled buffers are populated), and every Wl buffer only when
the `Wl` flag is set.  Buffers of disabled variants are left in their
never-populated (empty) state. -/
noncomputable def computeModel (s : Steinhardt)
    (nbrs : List (List (ℕ × ℝ × ℝ))) (Ylm : ℤ → ℝ × ℝ → ℂ)
    (w3j : ℤ → ℤ → ℝ) : Steinhardt :=
  { s with
    m_Np := nbrs.length
    m_Qli := (List.range nbrs.length).map
      (fun i => QlFromQlm s.m_l (baseQlm Ylm nbrs i))
    m_QliAve := if s.m_average then
        (List.range nbrs.length).map
          (fun i => QlFromQlm s.m_l (aveQlm Ylm nbrs i))
      else []
    m_QliNorm := if s.m_norm then
        (List.range nbrs.length).map
          (fun _ => QlFromQlm s.m_l (sysQlm s.m_average Ylm nbrs))
      else []
    m_QliAveNorm := if s.m_average && s.m_norm then
        (List.range nbrs.length).map
          (fun _ => QlFromQlm s.m_l (sysQlm s.m_average Ylm nbrs))
      else []
    m_Wli := if s.m_Wl then
        (List.range nbrs.length).map
          (fun i => WlFromQlm s.m_l w3j (baseQlm Ylm nbrs i))
      else []
    m_WliAve := if s.m_Wl && s.m_average then
        (List.range nbrs.length).map
          (fun i => WlFromQlm s.m_l w3j (aveQlm Ylm nbrs i))
      else []
    m_WliNorm := if s.m_Wl && s.m_norm then
        (List.range nbrs.length).map
          (fun _ => WlFromQlm s.m_l w3j (sysQlm s.m_average Ylm nbrs))
      else []
    m_WliAveNorm := if s.m_Wl && (s.m_average && s.m_norm) then
        (List.range nbrs.length).map
          (fun _ => WlFromQlm s.m_l w3j (sysQlm s.m_average Ylm nbrs))
      else [] }

/-! ## Pointer-level view of the Steinhardt accessors

`getQl`/`getWl` return `std::shared_ptr` by value: the pointer is copied,
the array behind it is not.  To reason about aliasing, the model below
keeps the address each buffer member points to, together with a heap
mapping addresses to array contents. -/

/-- A heap mapping addresses to float arrays: the arrays behind the
`shared_ptr` result buffers. -/
structure Heap where
  data : ℕ → List ℚ

/-- Overwrite the array at one address (what a recompute that reuses the
allocation, or a caller writing through an aliased pointer, does). -/
def Heap.write (h : Heap) (a : ℕ) (v : List ℚ) : Heap :=
  ⟨fun x => if x = a then v else h.data x⟩

/-- Read the array at an address. -/
def Heap.read (h : Heap) (a : ℕ) : List ℚ := h.data a

/-- Pointer-level state: the flags and, for each Ql buffer member, the
address of the array it owns (Steinhardt.h lines 210-216). -/
structure SteinhardtHandles where
  m_average : Bool
  m_norm : Bool
  m_Qli : ℕ
  m_QliAve : ℕ
  m_QliNorm : ℕ
  m_QliAveNorm : ℕ

/-- `Steinhardt::getQl` at the pointer level (Steinhardt.h lines 99-117):
the returned `shared_ptr<float>` carries the address of the selected
internal buffer itself. -/
def getQlHandle (s : SteinhardtHandles) : ℕ :=
  if s.m_average && s.m_norm then s.m_QliAveNorm
  else if s.m_average then s.m_QliAve
  else if s.m_norm then s.m_QliNorm
  else s.m_Qli

/-! ## PMFTXYTM2D (src/cpp/pmft/PMFTXYTM2D.cc) -/

/-- The configuration members set by the PMFTXYTM2D constructor
(PMFTXYTM2D.cc lines 26-53).  The precomputed bin-center arrays, the
zeroed pcf array and the link-cell helper carry no information beyond
these members and are omitted. -/
structure PMFTXYTM2D where
  m_max_x : ℚ
  m_max_y : ℚ
  m_max_T : ℚ
  m_nbins_x : ℕ
  m_nbins_y : ℕ
  m_nbins_T : ℕ
  m_dx : ℚ
  m_dy : ℚ
  m_dT : ℚ

/-- `PMFTXYTM2D::PMFTXYTM2D` (PMFTXYTM2D.cc lines 26-87): the explicit
bin-count and maximum checks, then the derived bin widths
`d = 2 * max / nbins` and the width checks, in source order. -/
def mkPMFTXYTM2D (max_x max_y max_T : ℚ)
    (nbins_x nbins_y nbins_T : ℕ) : Except String PMFTXYTM2D :=
  if nbins_x < 1 then Except.error "must be at least 1 bin in x"
  else if nbins_y < 1 then Except.error "must be at least 1 bin in y"
  else if nbins_T < 1 then Except.error "must be at least 1 bin in T"
  else if max_x < 0 then Except.error "max_x must be positive"
  else if max_y < 0 then Except.error "max_y must be positive"
  else if max_T < 0 then Except.error "max_T must be positive"
  else if 2 * max_x / (nbins_x : ℚ) > max_x then
    Except.error "max_x must be greater than dx"
  else if 2 * max_y / (nbins_y : ℚ) > max_y then
    Except.error "max_y must be greater than dy"
  else if 2 * max_T / (nbins_T : ℚ) > max_T then
    Except.error "max_T must be greater than dT"
  else
    Except.ok ⟨max_x, max_y, max_T, nbins_x, nbins_y, nbins_T,
               2 * max_x / (nbins_x : ℚ), 2 * max_y / (nbins_y : ℚ),
               2 * max_T / (nbins_T : ℚ)⟩

/-- Modelled from the spec: `Index3D` comes from Index1D.h, which is not
part of the excerpt.  It linearises `(i, j, k)` with `i` the fastest
index, matching the dims ordering `[nbins_T, nbins_y, nbins_x]` used in
`PMFTXYTM2D::getPCFPy` (PMFTXYTM2D.cc lines 291-294).  Only the width
`w` and height `h` enter the formula. -/
def Index3D (w h : ℕ) (i j k : ℕ) : ℕ := (k * h + j) * w + i

/-- Pointwise update of a flat histogram. -/
def updF (f : ℕ → ℕ) (a v : ℕ) : ℕ → ℕ :=
  fun x => if x = a then v else f x

/-- `PMFTXYTM2D::reducePCF` (PMFTXYTM2D.cc lines 268-277) including the
parallel body `CombinePCFXYTM2D::operator()` over the whole `i` range
(lines 115-132): zero the canonical array, then for each `(i, j, k)` add
every thread-local count at `Index3D nx ny i j k`.  The loop bounds
mirror the source exactly: the innermost loop over `k` runs to
`m_nbins_y` (line 122), not `m_nbins_T`, and `nT` is used nowhere. -/
def reducePCF (nx ny nT : ℕ) (locals : List (ℕ → ℕ)) : ℕ → ℕ :=
  (List.range nx).foldl (fun acc i =>
    (List.range ny).foldl (fun acc2 j =>
      (List.range ny).foldl (fun acc3 k =>
        locals.foldl (fun acc4 loc =>
          updF acc4 (Index3D nx ny i j k)
            (acc4 (Index3D nx ny i j k) + loc (Index3D nx ny i j k)))
          acc3)
        acc2)
      acc)
    (fun _ => 0)

/-- `floorf(v * dinv)` followed by the float-to-unsigned conversion
(PMFTXYTM2D.cc lines 242-254): the integral floor value lands in an
`unsigned int`, i.e. is taken modulo 2^32. -/
def binOf (v dinv : ℚ) : ℕ := (⌊v * dinv⌋ % (2 : ℤ) ^ 32).toNat

/-- Per-pair body of `ComputePMFTXYTM2D::operator()` (PMFTXYTM2D.cc
lines 219-259) from the point where the wrapped displacement is known:
skip the pair when the squared distance is below 1e-6; otherwise bin the
rotated coordinates and increment only when all three indices are
strictly below the bin counts.  The rotation and atan2 geometry produce
the intermediates `x`, `y`, `T`; the binning logic is independent of how
they arise, so they enter as parameters.  Returns the flat histogram
index incremented for this pair, or `none` when the pair contributes
nothing. -/
def processPair (nx ny nT : ℕ) (dxInv dyInv dTInv : ℚ)
    (rsq x y T : ℚ) : Option ℕ :=
  if rsq < 1 / 1000000 then none
  else
    if binOf x dxInv < nx ∧ binOf y dyInv < ny ∧ binOf T dTInv < nT then
      some (Index3D nx ny (binOf x dxInv) (binOf y dyInv) (binOf T dTInv))
    else none

/-! ## Concrete instances used by witnesses and counterexamples -/

/-- A freshly constructed state with all flags false
(`Steinhardt(1, 2, 0)`). -/
def steinFresh : Steinhardt :=
  ⟨0, 1, 2, 0, false, false, false, [], [], [], [], [], [], [], []⟩

/-- A state with `average = norm = true`. -/
def steinAveNorm : Steinhardt :=
  ⟨0, 1, 2, 0, true, true, false, [], [], [], [], [], [], [], []⟩

/-- A freshly constructed state with the `Wl` flag set. -/
def steinWithWl : Steinhardt :=
  ⟨0, 1, 2, 0, false, false, true, [], [], [], [], [], [], [], []⟩

/-- One particle with no bonds. -/
def nbrsEx : List (List (ℕ × ℝ × ℝ)) := [[]]

/-- A concrete spherical-harmonic evaluator. -/
def YlmEx : ℤ → ℝ × ℝ → ℂ := fun _ _ => 0

/-- A concrete Wigner 3j table. -/
def w3jEx : ℤ → ℤ → ℝ := fun _ _ => 0

/-- Pointer-level instance: both flags false, the four Ql buffers at
distinct addresses 0-3. -/
def handlesEx : SteinhardtHandles := ⟨false, false, 0, 1, 2, 3⟩

/-- A heap whose arrays are all empty. -/
def heapEx : Heap := ⟨fun _ => []⟩

/-- A thread-local histogram holding one count in flat bin 1. -/
def localHistEx : ℕ → ℕ := fun x => if x = 1 then 1 else 0

/-! ## Theorems -/

/-- C1: constructing a Steinhardt instance succeeds (no
invalid-configuration error) if and only if the parameters are valid,
i.e. `0 ≤ rmin < rmax` and `l ≥ 2`; equivalently it throws exactly when
`rmax < 0`, `rmin < 0`, `rmin ≥ rmax` or `l < 2`. -/
theorem mkSteinhardt_ok_iff (rmax : ℚ) (l : ℕ) (rmin : ℚ)
    (average : Bool) (norm : Bool) (wl : Bool) :
    exceptOk (mkSteinhardt rmax l rmin average norm wl) = true ↔
      (0 ≤ rmin ∧ rmin < rmax ∧ 2 ≤ l) := by
  unfold mkSteinhardt exceptOk
  split_ifs with h1 h2 h3
  · simp only [false_iff]
    rintro ⟨hmin, hlt, _⟩
    rcases h1 with h | h
    · linarith
    · linarith
  · simp only [false_iff]
    rintro ⟨hmin, hlt, _⟩
    linarith
  · simp only [false_iff]
    rintro ⟨_, _, hl⟩
    omega
  · simp only [true_iff]
    push_neg at h1 h2 h3
    exact ⟨h1.2, lt_of_not_ge (fun hc => absurd hc (not_le.mpr h2)), by omega⟩

/-- Witness for C1 at a concrete valid configuration. -/
theorem mkSteinhardt_ok_iff_witness :
    exceptOk (mkSteinhardt 1 2 0 false false false) = true :=
  (mkSteinhardt_ok_iff 1 2 0 false false false).mpr
    ⟨le_refl 0, by norm_num, le_refl 2⟩

/-- C2: `getQl` and `getWl` each return exactly the stored buffer
selected by the `average`/`norm` flag combination fixed at construction:
averaged+normalized when both are set, averaged when only `average`,
normalized when only `norm`, raw otherwise; nothing is computed by the
accessor. -/
theorem getQl_getWl_dispatch (s : Steinhardt) :
    ((s.m_average = true ∧ s.m_norm = true) →
       getQl s = s.m_QliAveNorm ∧ getWl s = s.m_WliAveNorm) ∧
    ((s.m_average = true ∧ s.m_norm = false) →
       getQl s = s.m_QliAve ∧ getWl s = s.m_WliAve) ∧
    ((s.m_average = false ∧ s.m_norm = true) →
       getQl s = s.m_QliNorm ∧ getWl s = s.m_WliNorm) ∧
    ((s.m_average = false ∧ s.m_norm = false) →
       getQl s = s.m_Qli ∧ getWl s = s.m_Wli) := by
  refine ⟨?_, ?_, ?_, ?_⟩ <;> rintro ⟨hA, hN⟩ <;>
    simp [getQl, getWl, hA, hN]

/-- Witness for C2 at the both-flags-set instance. -/
theorem getQl_getWl_dispatch_witness :
    getQl steinAveNorm = steinAveNorm.m_QliAveNorm ∧
    getWl steinAveNorm = steinAveNorm.m_WliAveNorm :=
  (getQl_getWl_dispatch steinAveNorm).1 ⟨rfl, rfl⟩

/-- C3: on any freshly constructed instance (no `compute` call yet),
`getQl` and `getWl` return the empty/default result and `getNP` returns
zero; no exception is raised by the accessors. -/
theorem fresh_instance_defaults (rmax : ℚ) (l : ℕ) (rmin : ℚ)
    (average : Bool) (norm : Bool) (wl : Bool) (s : Steinhardt)
    (h : mkSteinhardt rmax l rmin average norm wl = Except.ok s) :
    getQl s = [] ∧ getWl s = [] ∧ getNP s = 0 := by
  unfold mkSteinhardt at h
  split_ifs at h
  cases h
  refine ⟨?_, ?_, rfl⟩ <;>
    cases average <;> cases norm <;> simp [getQl, getWl]

/-- Witness for C3: the concrete construction `Steinhardt(1, 2, 0)`. -/
theorem fresh_instance_defaults_witness :
    getQl steinFresh = [] ∧ getWl steinFresh = [] ∧ getNP steinFresh = 0 :=
  fresh_instance_defaults 1 2 0 false false false steinFresh rfl

/-- C4: a particle with zero bonds in range has an all-zero accumulation
row and a zero bond count; the reduction special-cases the zero count
(no division by zero) and yields a zero row, so `Ql = 0` and `Wl = 0`. -/
theorem zero_bond_particle_zero (l : ℕ) (Ylm : ℤ → ℝ × ℝ → ℂ)
    (w3j : ℤ → ℤ → ℝ) (m : ℤ) :
    (accumBonds Ylm []).1 m = 0 ∧ (accumBonds Ylm []).2 = 0 ∧
    QlmReduced Ylm [] m = 0 ∧ Qli l Ylm [] = 0 ∧ Wli l w3j Ylm [] = 0 := by
  have h3 : ∀ mm, QlmReduced Ylm [] mm = 0 := by
    intro mm
    simp [QlmReduced, accumBonds]
  refine ⟨rfl, rfl, h3 m, ?_, ?_⟩
  · unfold Qli QlFromQlm
    simp [h3]
  · unfold Wli WlFromQlm
    simp [h3]

/-- Folding the accumulation step over a bond list adds the bond count
to the counter and the Ylm sums to the row, whatever the start state. -/
theorem accumStep_foldl (Ylm : ℤ → ℝ × ℝ → ℂ) (bonds : List (ℝ × ℝ)) :
    ∀ init : (ℤ → ℂ) × ℕ,
      (bonds.foldl (accumStep Ylm) init).2 = init.2 + bonds.length ∧
      ∀ m, (bonds.foldl (accumStep Ylm) init).1 m
          = init.1 m + (bonds.map (fun b => Ylm m b)).sum := by
  induction bonds with
  | nil => intro init; simp
  | cons b bs ih =>
    intro init
    simp only [List.foldl_cons, List.map_cons, List.sum_cons,
      List.length_cons]
    refine ⟨?_, ?_⟩
    · rw [(ih (accumStep Ylm init b)).1]
      simp only [accumStep]
      omega
    · intro m
      rw [(ih (accumStep Ylm init b)).2 m]
      simp only [accumStep]
      ring

/-- The guarded reduction equals the plain average of Ylm over the
bonds (with the empty-bond case agreeing because an empty sum divided by
a zero denominator is zero). -/
theorem QlmReduced_eq_average (Ylm : ℤ → ℝ × ℝ → ℂ)
    (bonds : List (ℝ × ℝ)) (m : ℤ) :
    QlmReduced Ylm bonds m
      = (bonds.map (fun b => Ylm m b)).sum / (bonds.length : ℂ) := by
  have hc : (accumBonds Ylm bonds).2 = bonds.length := by
    have h := (accumStep_foldl Ylm bonds (fun _ => 0, 0)).1
    simpa [accumBonds] using h
  have hr : (accumBonds Ylm bonds).1 m
      = (bonds.map (fun b => Ylm m b)).sum := by
    have h := (accumStep_foldl Ylm bonds (fun _ => 0, 0)).2 m
    simpa [accumBonds] using h
  unfold QlmReduced
  rw [hc, hr]
  by_cases hb : bonds.length = 0
  · simp [hb]
  · simp [hb]

/-- C5: the base order parameter computed by the pipeline (accumulate,
guarded reduce, invariant combination) equals the closed formula
`sqrt(4 pi / (2l+1) * sum over m in [-l, l] of |Qlm(i, m)|^2)` with
`Qlm(i, m)` the average of `Ylm` over the bonds of the particle. -/
theorem Qli_eq_spec_formula (l : ℕ) (Ylm : ℤ → ℝ × ℝ → ℂ)
    (bonds : List (ℝ × ℝ)) :
    Qli l Ylm bonds = QlSpecFormula l Ylm bonds := by
  unfold Qli QlFromQlm QlSpecFormula
  simp only [QlmReduced_eq_average]

/-- C6: the Wl result is available only when the `Wl` flag was set at
construction: with the flag clear, `getWl` after any compute still
returns the empty (never populated) result; with the flag set, the
returned buffer holds one entry per particle. -/
theorem getWl_requires_flag (s : Steinhardt)
    (nbrs : List (List (ℕ × ℝ × ℝ))) (Ylm : ℤ → ℝ × ℝ → ℂ)
    (w3j : ℤ → ℤ → ℝ) :
    (s.m_Wl = false → getWl (computeModel s nbrs Ylm w3j) = []) ∧
    (s.m_Wl = true →
      (getWl (computeModel s nbrs Ylm w3j)).length = nbrs.length) := by
  constructor <;> intro hW <;>
    cases hA : s.m_average <;> cases hN : s.m_norm <;>
      simp [getWl, computeModel, hW, hA, hN]

/-- Witness for C6: with the flag clear the result is empty; with the
flag set it has one entry for the one particle. -/
theorem getWl_requires_flag_witness :
    getWl (computeModel steinFresh nbrsEx YlmEx w3jEx) = [] ∧
    (getWl (computeModel steinWithWl nbrsEx YlmEx w3jEx)).length = 1 :=
  ⟨(getWl_requires_flag steinFresh nbrsEx YlmEx w3jEx).1 rfl,
   (getWl_requires_flag steinWithWl nbrsEx YlmEx w3jEx).2 rfl⟩

/-- C7 counterexample: the claim that a rewrite of the internal buffers
cannot be observed through a previously returned result fails on the
code.  With both flags false, `getQl` hands out the address of `m_Qli`
itself; after the engine overwrites that buffer in place, reading
through the previously returned handle sees the new contents. -/
theorem getQl_alias_counterexample :
    ¬ (Heap.read (Heap.write heapEx handlesEx.m_Qli [1])
          (getQlHandle handlesEx)
        = Heap.read heapEx (getQlHandle handlesEx)) := by
  decide

/-- C7 amended: `getQl` returns a live shared-ownership alias of one of
the four internal buffers, not an immutable snapshot: the returned
handle is the address of an internal buffer member, and a write through
that address is observed when reading through the handle. -/
theorem getQl_returns_live_alias (s : SteinhardtHandles) (h : Heap)
    (v : List ℚ) :
    (getQlHandle s = s.m_QliAveNorm ∨ getQlHandle s = s.m_QliAve ∨
     getQlHandle s = s.m_QliNorm ∨ getQlHandle s = s.m_Qli) ∧
    Heap.read (Heap.write h (getQlHandle s) v) (getQlHandle s) = v := by
  constructor
  · unfold getQlHandle
    split_ifs <;> simp
  · simp [Heap.read, Heap.write]

/-- C8: the reduction loop misses theta bins.  With
`nbins_x = nbins_y = 1` and `nbins_T = 2`, a thread-local count in bin
`(0, 0, 1)` is not transferred to the canonical array: the innermost
loop of `CombinePCFXYTM2D::operator()` runs `k` up to `m_nbins_y`
instead of `m_nbins_T`, so the canonical bin stays zero while the
thread-local sum at that bin is one. -/
theorem reducePCF_misses_theta_bins :
    reducePCF 1 1 2 [localHistEx] (Index3D 1 1 0 0 1) = 0 ∧
    localHistEx (Index3D 1 1 0 0 1) = 1 := by
  decide

set_option maxHeartbeats 1600000 in
/-- C9: although the explicit checks only require one bin per dimension,
a positive maximum with a single bin in that dimension always throws,
because the derived width `2 * max / 1` exceeds `max`; and with at least
two bins per dimension and positive maxima, construction succeeds. -/
theorem pmft_single_bin_throws (max_x max_y max_T : ℚ) (nx ny nT : ℕ) :
    (0 < max_x →
      exceptOk (mkPMFTXYTM2D max_x max_y max_T 1 ny nT) = false) ∧
    (0 < max_y →
      exceptOk (mkPMFTXYTM2D max_x max_y max_T nx 1 nT) = false) ∧
    (0 < max_T →
      exceptOk (mkPMFTXYTM2D max_x max_y max_T nx ny 1) = false) ∧
    ((0 < max_x ∧ 0 < max_y ∧ 0 < max_T ∧
        2 ≤ nx ∧ 2 ≤ ny ∧ 2 ≤ nT) →
      exceptOk (mkPMFTXYTM2D max_x max_y max_T nx ny nT) = true) := by
  refine ⟨?_, ?_, ?_, ?_⟩
  · intro hx
    unfold mkPMFTXYTM2D exceptOk
    split_ifs with h1 h2 h3 h4 h5 h6 h7 h8 h9 <;> try rfl
    exfalso
    apply h7
    simp only [Nat.cast_one, div_one]
    linarith
  · intro hy
    unfold mkPMFTXYTM2D exceptOk
    split_ifs with h1 h2 h3 h4 h5 h6 h7 h8 h9 <;> try rfl
    exfalso
    apply h8
    simp only [Nat.cast_one, div_one]
    linarith
  · intro hT
    unfold mkPMFTXYTM2D exceptOk
    split_ifs with h1 h2 h3 h4 h5 h6 h7 h8 h9 <;> try rfl
    exfalso
    apply h9
    simp only [Nat.cast_one, div_one]
    linarith
  · rintro ⟨hx, hy, hT, hnx, hny, hnT⟩
    have hnx' : (2 : ℚ) ≤ (nx : ℚ) := by exact_mod_cast hnx
    have hny' : (2 : ℚ) ≤ (ny : ℚ) := by exact_mod_cast hny
    have hnT' : (2 : ℚ) ≤ (nT : ℚ) := by exact_mod_cast hnT
    have hnxp : (0 : ℚ) < (nx : ℚ) := by linarith
    have hnyp : (0 : ℚ) < (ny : ℚ) := by linarith
    have hnTp : (0 : ℚ) < (nT : ℚ) := by linarith
    unfold mkPMFTXYTM2D exceptOk
    split_ifs with h1 h2 h3 h4 h5 h6 h7 h8 h9
    · exact absurd h1 (by omega)
    · exact absurd h2 (by omega)
    · exact absurd h3 (by omega)
    · exact absurd h4 (by linarith)
    · exact absurd h5 (by linarith)
    · exact absurd h6 (by linarith)
    · exfalso
      rw [gt_iff_lt, lt_div_iff hnxp] at h7
      nlinarith
    · exfalso
      rw [gt_iff_lt, lt_div_iff hnyp] at h8
      nlinarith
    · exfalso
      rw [gt_iff_lt, lt_div_iff hnTp] at h9
      nlinarith
    · rfl

/-- Witness for C9 at concrete maxima 1 and bin counts 1 and 2. -/
theorem pmft_single_bin_throws_witness :
    exceptOk (mkPMFTXYTM2D 1 1 1 1 2 2) = false ∧
    exceptOk (mkPMFTXYTM2D 1 1 1 2 1 2) = false ∧
    exceptOk (mkPMFTXYTM2D 1 1 1 2 2 1) = false ∧
    exceptOk (mkPMFTXYTM2D 1 1 1 2 2 2) = true :=
  ⟨(pmft_single_bin_throws 1 1 1 2 2 2).1 one_pos,
   (pmft_single_bin_throws 1 1 1 2 2 2).2.1 one_pos,
   (pmft_single_bin_throws 1 1 1 2 2 2).2.2.1 one_pos,
   (pmft_single_bin_throws 1 1 1 2 2 2).2.2.2
     ⟨one_pos, one_pos, one_pos, le_refl 2, le_refl 2, le_refl 2⟩⟩

/-- A triple of in-range bin indices linearises below the allocation
size. -/
theorem Index3D_lt (w h d i j k : ℕ) (hi : i < w) (hj : j < h)
    (hk : k < d) : Index3D w h i j k < w * h * d := by
  unfold Index3D
  have h1 : k * h + j + 1 ≤ (k + 1) * h := by
    have h2 : k * h + (j + 1) ≤ k * h + h := Nat.add_le_add_left hj (k * h)
    calc k * h + j + 1 = k * h + (j + 1) := by rw [Nat.add_assoc]
      _ ≤ k * h + h := h2
      _ = (k + 1) * h := by ring
  have h3 : (k + 1) * h ≤ d * h := Nat.mul_le_mul hk (le_refl h)
  calc (k * h + j) * w + i < (k * h + j) * w + w :=
        Nat.add_lt_add_left hi ((k * h + j) * w)
    _ = (k * h + j + 1) * w := by ring
    _ ≤ (d * h) * w := Nat.mul_le_mul (le_trans h1 h3) (le_refl w)
    _ = w * h * d := by ring

/-- C10: each pair either increments exactly one thread-local bin or
contributes nothing: a squared distance below 1e-6 skips the pair, bin
indices not all strictly below the bin counts discard it, and any index
that is incremented lies inside the allocated
`nbins_x * nbins_y * nbins_T` histogram. -/
theorem processPair_in_bounds (nx ny nT : ℕ) (dxInv dyInv dTInv : ℚ)
    (rsq x y T : ℚ) :
    (rsq < 1 / 1000000 →
      processPair nx ny nT dxInv dyInv dTInv rsq x y T = none) ∧
    (¬ (binOf x dxInv < nx ∧ binOf y dyInv < ny ∧ binOf T dTInv < nT) →
      processPair nx ny nT dxInv dyInv dTInv rsq x y T = none) ∧
    (∀ idx, processPair nx ny nT dxInv dyInv dTInv rsq x y T = some idx →
      idx < nx * ny * nT) := by
  refine ⟨?_, ?_, ?_⟩
  · intro h
    unfold processPair
    rw [if_pos h]
  · intro h
    unfold processPair
    by_cases h1 : rsq < 1 / 1000000
    · rw [if_pos h1]
    · rw [if_neg h1, if_neg h]
  · intro idx hidx
    unfold processPair at hidx
    by_cases h1 : rsq < 1 / 1000000
    · rw [if_pos h1] at hidx
      exact absurd hidx (by simp)
    · rw [if_neg h1] at hidx
      by_cases h2 : binOf x dxInv < nx ∧ binOf y dyInv < ny ∧
          binOf T dTInv < nT
      · rw [if_pos h2] at hidx
        have hval := Option.some.inj hidx
        rw [← hval]
        exact Index3D_lt nx ny nT _ _ _ h2.1 h2.2.1 h2.2.2
      · rw [if_neg h2] at hidx
        exact absurd hidx (by simp)

/-- Witness for C10: a close pair is skipped, an out-of-range coordinate
is discarded, and a binned pair lands at flat index 0, inside the
2*2*2 allocation. -/
theorem processPair_in_bounds_witness :
    processPair 2 2 2 1 1 1 0 1 1 1 = none ∧
    processPair 2 2 2 1 1 1 1 5 1 1 = none ∧
    (0 : ℕ) < 2 * 2 * 2 :=
  ⟨(processPair_in_bounds 2 2 2 1 1 1 0 1 1 1).1 (by norm_num),
   (processPair_in_bounds 2 2 2 1 1 1 1 5 1 1).2.1
     (by norm_num [binOf]),
   (processPair_in_bounds 2 2 2 1 1 1 1 (1/2) (1/2) (1/2)).2.2 0
     (by norm_num [processPair, binOf, Index3D])⟩
